import Mathlib

/-!
Shallow embedding of the apples2apples_rate_scanner repository
(`apples_v2.py` and `app.py`) and proofs about its specification claims.

Python floats are modelled as rationals (`ℚ`); Python `None` as `Option`;
Python exceptions as `Option`/`Except` results.  String-level helpers
(`strip`, `lower`, `replace`, regex searches) are modelled on `List Char`.
-/

attribute [local semireducible] Rat.add Rat.mul Rat.sub Rat.inv Rat.ofScientific

/-! ## String utilities (models of Python string operations) -/

/-- Model of Python `str.strip()` on the left: drop leading whitespace. -/
def trimLeadWs (l : List Char) : List Char := l.dropWhile Char.isWhitespace

/-- Model of Python `str.strip()`: drop leading and trailing whitespace. -/
def pyStripChars (l : List Char) : List Char :=
  ((trimLeadWs l).reverse.dropWhile Char.isWhitespace).reverse

/-- Model of Python `str.strip()` on `String`. -/
def pyStrip (s : String) : String := ⟨pyStripChars s.data⟩

/-- Model of Python `str.lower()` (ASCII, which covers all inputs here). -/
def pyLower (s : String) : String := ⟨s.data.map Char.toLower⟩

/-- Does `pat` occur at the start of `s`?  (Model of `str.startswith`.) -/
def startsWithCh : List Char → List Char → Bool
  | [], _ => true
  | _ :: _, [] => false
  | p :: ps, c :: cs => p == c && startsWithCh ps cs

/-- Does `pat` occur anywhere in `s`?  (Model of Python `pat in s`.) -/
def occursIn (pat : List Char) : List Char → Bool
  | [] => pat.isEmpty
  | c :: cs => startsWithCh pat (c :: cs) || occursIn pat cs

/-- Fuelled worker for `replaceAll`; the fuel is the input length, which
always suffices because every step consumes at least one character. -/
def replaceAllAux (pat rep : List Char) : Nat → List Char → List Char
  | 0, s => s
  | _, [] => []
  | fuel + 1, c :: rest =>
    if startsWithCh pat (c :: rest) then
      rep ++ replaceAllAux pat rep fuel ((c :: rest).drop pat.length)
    else
      c :: replaceAllAux pat rep fuel rest

/-- Model of Python `str.replace(pat, rep)` (replace all, left to right,
non-overlapping). -/
def replaceAll (pat rep s : List Char) : List Char :=
  if pat.isEmpty then s else replaceAllAux pat rep s.length s

/-- Numeric value of a list of decimal digit characters. -/
def digitsToNat (l : List Char) : Nat :=
  l.foldl (fun n c => 10 * n + (c.toNat - '0'.toNat)) 0

/-- Value of a fractional digit block `ds` read after a decimal point. -/
def fracVal (ds : List Char) : ℚ :=
  (digitsToNat ds : ℚ) / (10 : ℚ) ^ ds.length

/-- Value of the regex match `\d+(?:\.\d+)?` starting at digit `c`:
greedy integer digits, then an optional `.`‑fraction. -/
def decimalAt (c : Char) (rest : List Char) : ℚ :=
  let ds := c :: rest.takeWhile Char.isDigit
  let after := rest.drop (ds.length - 1)
  match after with
  | '.' :: d :: more =>
    if d.isDigit then (digitsToNat ds : ℚ) + fracVal (d :: more.takeWhile Char.isDigit)
    else (digitsToNat ds : ℚ)
  | _ => (digitsToNat ds : ℚ)

/-- Model of `re.search(r"(\d+(?:\.\d+)?)", s)` followed by `float(...)`:
the leftmost unsigned decimal substring, if any. -/
def searchDecimal : List Char → Option ℚ
  | [] => none
  | c :: rest => if c.isDigit then some (decimalAt c rest) else searchDecimal rest

/-- Model of `re.search(r"(-?\d+(?:\.\d+)?)", s)` followed by `float(...)`:
the leftmost optionally-minus-signed decimal substring, if any. -/
def searchSignedDecimal : List Char → Option ℚ
  | [] => none
  | c :: rest =>
    if c.isDigit then some (decimalAt c rest)
    else if c = '-' then
      match rest with
      | [] => none
      | d :: rest2 =>
        if d.isDigit then some (-(decimalAt d rest2))
        else searchSignedDecimal rest
    else searchSignedDecimal rest

/-- Model of `re.search(r"(\d+)", s)` followed by `int(...)`:
the leftmost digit run, if any. -/
def searchInt : List Char → Option Nat
  | [] => none
  | c :: rest =>
    if c.isDigit then some (digitsToNat (c :: rest.takeWhile Char.isDigit))
    else searchInt rest

/-- Model of Python `float(text)` on plain decimal notation (optional sign,
digits, optional fractional part) — the only numeric forms the term-expression
grammar admits; anything else is `none`, which models `float` raising. -/
def parseFloatChars (s : List Char) : Option ℚ :=
  let signed : ℚ × List Char :=
    match s with
    | '-' :: r => (-1, r)
    | '+' :: r => (1, r)
    | _ => (1, s)
  let sign := signed.1
  let t := signed.2
  let ip := t.takeWhile Char.isDigit
  let rest := t.drop ip.length
  match rest with
  | [] => if ip.isEmpty then none else some (sign * (digitsToNat ip : ℚ))
  | '.' :: fr =>
    let fp := fr.takeWhile Char.isDigit
    if !(fr.drop fp.length).isEmpty then none
    else if ip.isEmpty && fp.isEmpty then none
    else some (sign * ((digitsToNat ip : ℚ) + fracVal fp))
  | _ => none

/-! ## Field parsers (apples_v2.py lines 65–112) -/

/-- Model of `re.sub(r"\s+", " ", ·)`: collapse each whitespace run to one
space.  The flag records whether the previous character was whitespace. -/
def collapseWsAux : Bool → List Char → List Char
  | _, [] => []
  | prevWs, c :: rest =>
    if c.isWhitespace then
      if prevWs then collapseWsAux true rest
      else ' ' :: collapseWsAux true rest
    else c :: collapseWsAux false rest

/-- Header-synonym table of `norm_header` (apples_v2.py:67). -/
def headerMapping (t : String) : String :=
  if t = "click to compare" then "compare"
  else if t = "compare" then "compare"
  else if t = "supplier" then "supplier"
  else if t = "company" then "supplier"
  else if t = "$/kwh" then "price"
  else if t = "price" then "price"
  else if t = "rate type" then "rate_type"
  else if t = "renew. content" then "renewable"
  else if t = "renewable content" then "renewable"
  else if t = "intro. price" then "intro_price"
  else if t = "intro price" then "intro_price"
  else if t = "term. length" then "term"
  else if t = "term length" then "term"
  else if t = "early term. fee" then "etf"
  else if t = "early termination fee" then "etf"
  else if t = "monthly fee" then "monthly_fee"
  else if t = "promo. offers" then "promo"
  else if t = "promo offers" then "promo"
  else t

/-- Model of `norm_header` (apples_v2.py:65): collapse whitespace in the
stripped, lower-cased text, then look it up in the synonym table. -/
def norm_header (txt : String) : String :=
  headerMapping ⟨collapseWsAux false (pyStripChars (txt.data.map Char.toLower))⟩

/-- Model of `parse_dollars_per_kwh` (apples_v2.py:89): `None` on empty text,
else the first decimal substring after removing commas. -/
def parse_dollars_per_kwh (s : String) : Option ℚ :=
  if s = "" then none else searchDecimal (s.data.filter (fun c => c ≠ ','))

/-- Model of `parse_term_months` (apples_v2.py:95): `None` on empty text,
else the first integer substring. -/
def parse_term_months (s : String) : Option Nat :=
  if s = "" then none else searchInt s.data

/-- Placeholder tokens recognised by `parse_money_to_float` (apples_v2.py:109). -/
def moneyPlaceholders : List String :=
  ["—", "-", "n/a", "na", "none", "no", "not applicable"]

/-- Model of `parse_money_to_float` (apples_v2.py:101): `None` on empty text
or a recognised placeholder, else the first signed decimal substring of the
comma-stripped text. -/
def parse_money_to_float (s : String) : Option ℚ :=
  if s = "" then none
  else
    let t : String := ⟨pyStripChars s.data⟩
    if t ∈ moneyPlaceholders then none
    else searchSignedDecimal (t.data.filter (fun c => c ≠ ','))

/-! ## Offer records, qualification, and selection (apples_v2.py lines 170–220) -/

/-- Model of one extracted row dict (apples_v2.py:170). -/
structure Offer where
  supplier : String
  price_dollars_per_kwh : Option ℚ
  rate_type : String
  term_months : Option Nat
  etf : String
  etf_amount : Option ℚ
  monthly_fee : String
  monthly_fee_amount : Option ℚ
  renewable : String
  promo : String
  intro_price : String
  deriving DecidableEq, Repr

/-- Model of `qualifies_v2` (apples_v2.py:185): fixed rate only, and both
fee amounts must be an explicit parsed zero (`None == 0.0` is false in
Python, so an absent amount disqualifies). -/
def qualifies_v2 (r : Offer) : Bool :=
  if startsWithCh "variable".data (pyLower r.rate_type).data then false
  else decide (r.etf_amount = some 0 ∧ r.monthly_fee_amount = some 0)

/-- The selection filter shared by `choose_lowest` and
`choose_lowest_per_term` (apples_v2.py:198/205): a parsed price and
qualification. -/
def selOk (r : Offer) : Bool :=
  r.price_dollars_per_kwh.isSome && qualifies_v2 r

/-- Price of a row inside the selection code; rows reaching these key
functions always carry a parsed price (the filter/extractor guarantee it),
so the default is never read. -/
def priceVal (r : Offer) : ℚ := r.price_dollars_per_kwh.getD 0

/-- Model of the Python expression `(term_months or -1)` used at
apples_v2.py:202: `None` is falsy, and so is the integer `0`. -/
def pyOrNeg1 : Option Nat → ℤ
  | none => -1
  | some n => if n = 0 then -1 else (n : ℤ)

/-- Sort key of `choose_lowest` (apples_v2.py:202): price ascending, then
`-(term_months or -1)` ascending, compared lexicographically. -/
def overallKey (r : Offer) : Lex (ℚ × ℤ) :=
  toLex (priceVal r, -(pyOrNeg1 r.term_months))

/-- Tie-break key of `choose_lowest_per_term` (apples_v2.py:215): the tuple
`(price, supplier)` compared lexicographically.  Python compares strings by
code points, which is exactly the lexicographic order on their character
lists (and is also how `String.lt` is defined in Lean). -/
def perTermKey (r : Offer) : Lex (ℚ × List Char) :=
  toLex (priceVal r, r.supplier.data)

/-- One step of Python `min(..., key=k)`: keep the current best, replace it
only when the new key is strictly smaller (so the first minimum wins). -/
def minStep {α κ : Type} [LinearOrder κ] (k : α → κ) (acc : Option α) (r : α) : Option α :=
  match acc with
  | none => some r
  | some b => if k r < k b then some r else some b

/-- Model of Python `min(l, key=k)` on a possibly-empty list: `none` when
empty, else the first element with minimal key. -/
def pyMinBy {α κ : Type} [LinearOrder κ] (k : α → κ) (l : List α) : Option α :=
  l.foldl (minStep k) none

/-- Model of `choose_lowest` (apples_v2.py:197): filter, then the minimum by
`(price asc, -(term or -1) asc)`; `None` when nothing qualifies. -/
def choose_lowest (rows : List Offer) : Option Offer :=
  pyMinBy overallKey (rows.filter selOk)

/-- Lookup in the association-list model of the Python dict `by_term`. -/
def lookupT (t : Nat) : List (Nat × Offer) → Option Offer
  | [] => none
  | (t', r) :: m => if t' = t then some r else lookupT t m

/-- Model of the dict assignment `by_term[term] = row` when the key is
already present. -/
def setT (t : Nat) (r : Offer) (m : List (Nat × Offer)) : List (Nat × Offer) :=
  m.map (fun p => if p.1 = t then (t, r) else p)

/-- One iteration of the loop body of `choose_lowest_per_term`
(apples_v2.py:207–219): skip rows without a term; install the first row seen
for a new term; replace the stored row only when `(price, supplier)` is
strictly smaller. -/
def perTermStep (m : List (Nat × Offer)) (r : Offer) : List (Nat × Offer) :=
  match r.term_months with
  | none => m
  | some t =>
    match lookupT t m with
    | none => m ++ [(t, r)]
    | some b => if perTermKey r < perTermKey b then setT t r m else m

/-- Model of `choose_lowest_per_term` (apples_v2.py:204): build `by_term`
with the fold above, then report the stored offers in ascending key order
(`sorted(by_term)`). -/
def choose_lowest_per_term (rows : List Offer) : List Offer :=
  let filtered := rows.filter selOk
  let by_term := filtered.foldl perTermStep []
  (List.insertionSort (· ≤ ·) (by_term.map Prod.fst)).filterMap
    (fun t => lookupT t by_term)

/-- Model of the per-rule tripping test in `main` (apples_v2.py:470):
a per-term winner trips when its price is strictly below the rule's
threshold — the stored term qualifier is not consulted (`load_alerts` at
apples_v2.py:321 selects only `id, name, threshold, email_to, active`). -/
def alert_tripped (best_per_term : List Offer) (threshold : ℚ) : List Offer :=
  best_per_term.filter (fun r => decide (priceVal r < threshold))

/-! ## HTML table model, table locator, and row extractor
(apples_v2.py lines 114–183)

The BeautifulSoup document is embedded as an abstract syntax tree: a
document is the list of its tables in document order; a table carries the
texts of its `thead th` cells, all its `tr` rows in document order, and the
`tr` rows inside its `tbody`; a row is its list of cells; a cell records
whether it is a `th`, its `get_text(" ", strip=True)` text, and the text of
a nested `span.retail-title` when present. -/

/-- Model of one table cell. -/
structure Cell where
  isTh : Bool
  text : String
  retailTitle : Option String
  deriving DecidableEq, Repr

/-- Model of one `tr` row. -/
structure HRow where
  cells : List Cell
  deriving DecidableEq, Repr

/-- Model of one `table` element. -/
structure HTable where
  theadThs : List String
  trs : List HRow
  tbodyTrs : List HRow
  deriving DecidableEq, Repr

/-- Model of the parsed document: its tables in document order. -/
abbrev HtmlDoc := List HTable

/-- Headers of a table as computed at apples_v2.py:117–121: the normalized
`thead th` texts when any exist, else the normalized cell texts (`th` and
`td`) of the first `tr`. -/
def tableHeaders (t : HTable) : List String :=
  if t.theadThs ≠ [] then t.theadThs.map norm_header
  else
    match t.trs with
    | [] => []
    | first :: _ => first.cells.map (fun c => norm_header c.text)

/-- Does a table expose both a `price` and a `supplier` column
(apples_v2.py:122)? -/
def headerOk (t : HTable) : Bool :=
  decide ("price" ∈ tableHeaders t ∧ "supplier" ∈ tableHeaders t)

/-- Model of `find_offers_table` (apples_v2.py:114): the first table, in
document order, whose normalized headers contain both `price` and
`supplier`, together with those headers; `none` when no table qualifies. -/
def find_offers_table : HtmlDoc → Option (HTable × List String)
  | [] => none
  | t :: rest =>
    if headerOk t then some (t, tableHeaders t) else find_offers_table rest

/-- Index of the last occurrence of `name` in the header list: the Python
dict comprehension `{name: i for i, name in enumerate(headers)}` lets later
duplicates overwrite earlier ones. -/
def lastIdx (hs : List String) (name : String) : Option Nat :=
  hs.enum.foldl (fun acc p => if p.2 = name then some p.1 else acc) none

/-- The `td` cells of a row (`tr.find_all("td")`, apples_v2.py:137). -/
def rowTds (tr : HRow) : List Cell := tr.cells.filter (fun c => !c.isTh)

/-- Text of an optional cell; the padded `None` cells read as empty. -/
def cellTextD : Option Cell → String
  | none => ""
  | some c => c.text

/-- Model of the body of the row loop of `extract_rows`
(apples_v2.py:136–182): `none` models `continue` (row discarded), `some`
the dict appended to `rows`. -/
def rowToOffer (headers : List String) (tr : HRow) : Option Offer :=
  let ts := rowTds tr
  if ts = [] then none
  else
    let cells : List (Option Cell) :=
      ts.map some ++ List.replicate (headers.length - ts.length) none
    let supplier_cell := cells.getD ((lastIdx headers "supplier").getD 0) none
    let supplier :=
      match supplier_cell with
      | none => ""
      | some c =>
        match c.retailTitle with
        | some t => t
        | none => c.text
    let price :=
      parse_dollars_per_kwh (cellTextD (cells.getD ((lastIdx headers "price").getD 0) none))
    if supplier = "" ∨ price = none then none
    else
      let fieldText (name : String) : String :=
        match lastIdx headers name with
        | none => ""
        | some i => cellTextD (cells.getD i none)
      let term :=
        match lastIdx headers "term" with
        | none => none
        | some i =>
          match cells.getD i none with
          | none => none
          | some c => parse_term_months c.text
      let etf_str := fieldText "etf"
      let monthly_fee_str := fieldText "monthly_fee"
      some
        { supplier := supplier
          price_dollars_per_kwh := price
          rate_type := fieldText "rate_type"
          term_months := term
          etf := etf_str
          etf_amount := parse_money_to_float etf_str
          monthly_fee := monthly_fee_str
          monthly_fee_amount := parse_money_to_float monthly_fee_str
          renewable := fieldText "renewable"
          promo := fieldText "promo"
          intro_price := fieldText "intro_price" }

/-- The rows walked by `extract_rows` (apples_v2.py:133):
`tbl.select("tbody tr") or tbl.find_all("tr")`. -/
def trsUsed (t : HTable) : List HRow :=
  if t.tbodyTrs ≠ [] then t.tbodyTrs else t.trs

/-- The error message of the `RuntimeError` raised at apples_v2.py:130. -/
def noTableMsg : String := "Could not locate the offers table on the page."

/-- Model of `extract_rows` (apples_v2.py:126): locate the offers table or
fail, then walk its rows, silently discarding non-offer rows. -/
def extract_rows (doc : HtmlDoc) : Except String (List Offer) :=
  match find_offers_table doc with
  | none => .error noTableMsg
  | some (tbl, headers) => .ok ((trsUsed tbl).filterMap (rowToOffer headers))

/-! ## Term-expression parser and alert creation (app.py lines 121–199) -/

/-- The epsilon used at app.py:137/141 for strict comparators. -/
def tinyEps : ℚ := 1 / 1000000000

/-- Is the first character a comparator start (`>` or `<`)?  Model of
`cleaned.startswith((">=", "<=", ">", "<"))`. -/
def startsCmp : List Char → Bool
  | '>' :: _ => true
  | '<' :: _ => true
  | _ => false

/-- Cleaning pass of `parse_term_expression` (app.py:126–128): drop the
words "months"/"month"/"mos"/"mo", turn "to" into "-", drop spaces. -/
def termClean (e : List Char) : List Char :=
  replaceAll " ".data "".data
    (replaceAll "to".data "-".data
      (replaceAll "mo".data "".data
        (replaceAll "mos".data "".data
          (replaceAll "month".data "".data
            (replaceAll "months".data "".data e)))))

/-- Branch chain of `parse_term_expression` (app.py:130–160), applied to the
stripped lower-cased text `e` and its cleaned form.  `none` models
`float(...)` raising (the spec's `InvalidTermExpression`). -/
def termBranches (e cleaned : List Char) : Option (Option ℚ × Option ℚ) :=
  if startsCmp cleaned then
    let two := cleaned.take 2
    let op := if two = ['>', '='] ∨ two = ['<', '='] then two else cleaned.take 1
    let val_str := cleaned.drop op.length
    match parseFloatChars val_str with
    | none => none
    | some v =>
      if op = ['>', '='] then some (some v, none)
      else if op = ['>'] then some (some (v + tinyEps), none)
      else if op = ['<', '='] then some (none, some v)
      else some (none, some (v - tinyEps))
  else if cleaned.getLast? = some '+' then
    match parseFloatChars cleaned.dropLast with
    | none => none
    | some v => some (some v, none)
  else if '-' ∈ cleaned then
    let lo := cleaned.takeWhile (fun c => c ≠ '-')
    let hi := (cleaned.dropWhile (fun c => c ≠ '-')).drop 1
    match parseFloatChars lo, parseFloatChars hi with
    | some l, some h => some (some l, some h)
    | _, _ => none
  else if cleaned.head? = some '=' then
    match parseFloatChars (cleaned.dropWhile (fun c => c = '=')) with
    | none => none
    | some v => some (some v, some v)
  else if occursIn "exact".data e then
    match parseFloatChars (replaceAll "exact".data "".data
        (replaceAll "exactly".data "".data cleaned)) with
    | none => none
    | some v => some (some v, some v)
  else
    match parseFloatChars cleaned with
    | none => none
    | some v => some (some v, some v)

/-- Model of `parse_term_expression` (app.py:121): strip and lower-case,
return `(none, none)` on empty text, else run the branch chain on the
cleaned text.  The outer `Option` is the exception behaviour. -/
def parse_term_expression (expr : String) : Option (Option ℚ × Option ℚ) :=
  let e : List Char := (pyStripChars expr.data).map Char.toLower
  if e = [] then some (none, none)
  else termBranches e (termClean e)

/-- Model of one row of the `alerts` table written by app.py. -/
structure AlertRow where
  name : String
  threshold : ℚ
  email_to : String
  term_expr : Option String
  active : Bool
  created_at : String
  deriving DecidableEq, Repr

/-- Outcome of a `create_alert` request: which `flash` branch ran. -/
inductive CreateResult where
  | missingFields
  | badThreshold
  | invalidTermExpr
  | created
  deriving DecidableEq, Repr

/-- Model of the `create_alert` handler (app.py:163–199).  The alerts store
is the list of stored rows (insertion order = autoincrement order); the
handler returns the outcome and the updated store. -/
def create_alert (db : List AlertRow) (nameF thresholdF emailF termF : String)
    (activeOn : Bool) (now : String) : CreateResult × List AlertRow :=
  let name : String := pyStrip nameF
  let thr : String := pyStrip thresholdF
  let email : String := pyStrip emailF
  let te : String := pyStrip termF
  if name = "" ∨ thr = "" ∨ email = "" then (.missingFields, db)
  else
    match parseFloatChars thr.data with
    | none => (.badThreshold, db)
    | some threshold =>
      if te ≠ "" ∧ parse_term_expression te = none then (.invalidTermExpr, db)
      else
        (.created,
          db ++ [{ name := name, threshold := threshold, email_to := email,
                   term_expr := if te = "" then none else some te,
                   active := activeOn, created_at := now }])

/-- Digit and dot characters: the alphabet of the plain numeric text `v`
in a comparator form `>=v`, `>v`, `<=v`, `<v`. -/
def numChars : List Char := ['0', '1', '2', '3', '4', '5', '6', '7', '8', '9', '.']

/-! ## Concrete fixtures used by witnesses and counterexamples -/

/-- Fixture: a qualifying fixed-rate offer with price `p` and term `t`. -/
def fxOffer (s : String) (p : ℚ) (t : Option Nat) : Offer :=
  { supplier := s, price_dollars_per_kwh := some p, rate_type := "Fixed",
    term_months := t, etf := "$0.00", etf_amount := some 0,
    monthly_fee := "$0.00", monthly_fee_amount := some 0,
    renewable := "", promo := "", intro_price := "" }

/-- Fixture: qualifying offer with term `0` months at price $0.05/kWh. -/
def c3ZeroTerm : Offer := fxOffer "Alpha Power" (1/20) (some 0)

/-- Fixture: qualifying offer with no term at the same price $0.05/kWh. -/
def c3NoTerm : Offer := fxOffer "Beta Power" (1/20) none

/-- Fixture: qualifying offers at the same price $0.0650 with terms 12/24. -/
def tieOffer12 : Offer := fxOffer "Gamma Energy" (13/200) (some 12)

/-- Fixture: the 24-month side of the equal-price tie. -/
def tieOffer24 : Offer := fxOffer "Delta Energy" (13/200) (some 24)

/-- Sort key as the SPEC words describe it, for comparison with the source
key `overallKey`: price ascending, then term descending with an absent term
treated as minus infinity.  Over `Nat` terms "minus infinity" is encoded
exactly by sending an absent term to `-1 : ℤ`, strictly below every
representable term (including `0`). -/
def specOverallKey (r : Offer) : Lex (ℚ × ℤ) :=
  toLex (priceVal r,
    -(match r.term_months with
      | none => (-1 : ℤ)
      | some n => (n : ℤ)))

/-- Fixture: the 12-month per-term winner of the spec's matcher example,
at $0.0650/kWh. -/
def winner12 : Offer := fxOffer "SupplierA" (13/200) (some 12)

/-- Fixture: the 36-month per-term winner of that example, at $0.0600/kWh. -/
def winner36 : Offer := fxOffer "SupplierB" (3/50) (some 36)

/-- Fixture: a variable-rate offer with explicitly zero fees. -/
def varOffer : Offer := { fxOffer "Var Co" (1/100) (some 12) with rate_type := "Variable" }

/-- Fixture: an offer whose early-termination-fee cell read "—". -/
def dashFeeOffer : Offer :=
  { fxOffer "Dash Co" (1/100) (some 12) with
    etf := "—", etf_amount := parse_money_to_float "—" }

/-- Fixture: an offer whose early-termination-fee cell read "$0.00". -/
def zeroFeeOffer : Offer :=
  { fxOffer "Zero Co" (1/100) (some 12) with
    etf := "$0.00", etf_amount := parse_money_to_float "$0.00" }

/-- Fixture: a non-`th` cell with plain text and no retail-title span. -/
def fxCell (s : String) : Cell := { isTh := false, text := s, retailTitle := none }

/-- Fixture: an offer row whose supplier cell embeds a retail-title span. -/
def demoRow1 : HRow :=
  ⟨[{ isTh := false, text := "Acme Energy ★ badge", retailTitle := some "Acme Energy" },
    fxCell "$0.0650", fxCell "Fixed", fxCell "12 months", fxCell "$0.00", fxCell "$0.00"]⟩

/-- Fixture: a spacer row with an empty supplier cell. -/
def demoRow2 : HRow := ⟨[fxCell "", fxCell "", fxCell "", fxCell "", fxCell "", fxCell ""]⟩

/-- Fixture: a row whose price cell holds the placeholder "—". -/
def demoRow3 : HRow := ⟨[fxCell "Beta", fxCell "—", fxCell "Fixed", fxCell "", fxCell "", fxCell ""]⟩

/-- Fixture: the header texts of the demo offers table. -/
def demoHeaderTexts : List String :=
  ["Supplier", "$/kWh", "Rate Type", "Term. Length", "Early Term. Fee", "Monthly Fee"]

/-- Fixture: the header row of the demo offers table. -/
def demoHeadRow : HRow :=
  ⟨demoHeaderTexts.map (fun s => { isTh := true, text := s, retailTitle := none })⟩

/-- Fixture: a table carrying both `price` and `supplier` columns. -/
def demoTable : HTable :=
  { theadThs := demoHeaderTexts,
    trs := [demoHeadRow, demoRow1, demoRow2, demoRow3],
    tbodyTrs := [demoRow1, demoRow2, demoRow3] }

/-- Fixture: the offer extracted from `demoRow1`. -/
def demoOffer : Offer :=
  { supplier := "Acme Energy", price_dollars_per_kwh := some (13/200),
    rate_type := "Fixed", term_months := some 12,
    etf := "$0.00", etf_amount := some 0,
    monthly_fee := "$0.00", monthly_fee_amount := some 0,
    renewable := "", promo := "", intro_price := "" }

/-- Fixture: a table with neither a `price` nor a `supplier` column. -/
def badTable : HTable := { theadThs := ["Date", "Notes"], trs := [], tbodyTrs := [] }

/-- Fixture: a one-column table whose lone offer row has no term cell, so
the extracted offer's optional fields stay absent. -/
def tinyTable : HTable :=
  { theadThs := ["Supplier", "$/kWh"],
    trs := [⟨[fxCell "Solo", fxCell "0.09"]⟩],
    tbodyTrs := [⟨[fxCell "Solo", fxCell "0.09"]⟩] }

/-! ## Lemmas about the selection machinery -/

theorem minStep_none {α κ : Type} [LinearOrder κ] (k : α → κ) (r : α) :
    minStep k none r = some r := rfl

theorem foldl_minStep_some {α κ : Type} [LinearOrder κ] (k : α → κ) :
    ∀ (l : List α) (b : α), ∃ o, l.foldl (minStep k) (some b) = some o ∧
      (o = b ∨ o ∈ l) ∧ k o ≤ k b ∧ ∀ r ∈ l, k o ≤ k r := by
  intro l
  induction l with
  | nil => exact fun b => ⟨b, rfl, Or.inl rfl, le_refl _, by simp⟩
  | cons r l ih =>
    intro b
    rw [List.foldl_cons]
    by_cases h : k r < k b
    · have step : minStep k (some b) r = some r := by simp [minStep, h]
      rw [step]
      obtain ⟨o, ho, hmem, hle, hall⟩ := ih r
      refine ⟨o, ho, ?_, hle.trans h.le, ?_⟩
      · rcases hmem with rfl | hm
        · exact Or.inr (List.mem_cons_self _ _)
        · exact Or.inr (List.mem_cons_of_mem _ hm)
      · intro x hx
        rcases List.mem_cons.mp hx with rfl | hx'
        · exact hle
        · exact hall x hx'
    · have step : minStep k (some b) r = some b := by simp [minStep, h]
      rw [step]
      obtain ⟨o, ho, hmem, hle, hall⟩ := ih b
      refine ⟨o, ho, ?_, hle, ?_⟩
      · rcases hmem with rfl | hm
        · exact Or.inl rfl
        · exact Or.inr (List.mem_cons_of_mem _ hm)
      · intro x hx
        rcases List.mem_cons.mp hx with rfl | hx'
        · exact hle.trans (not_lt.mp h)
        · exact hall x hx'

theorem pyMinBy_eq_none_iff {α κ : Type} [LinearOrder κ] (k : α → κ) (l : List α) :
    pyMinBy k l = none ↔ l = [] := by
  cases l with
  | nil => simp [pyMinBy]
  | cons r l =>
    simp only [pyMinBy, List.foldl_cons, minStep_none]
    obtain ⟨o, ho, -⟩ := foldl_minStep_some k l r
    simp [ho]

theorem pyMinBy_spec {α κ : Type} [LinearOrder κ] (k : α → κ) (l : List α) (o : α)
    (h : pyMinBy k l = some o) : o ∈ l ∧ ∀ r ∈ l, k o ≤ k r := by
  cases l with
  | nil => simp [pyMinBy] at h
  | cons r l =>
    rw [pyMinBy, List.foldl_cons, minStep_none] at h
    obtain ⟨o', ho', hmem, hle, hall⟩ := foldl_minStep_some k l r
    rw [ho', Option.some.injEq] at h
    subst h
    constructor
    · rcases hmem with rfl | hm
      · exact List.mem_cons_self _ _
      · exact List.mem_cons_of_mem _ hm
    · intro x hx
      rcases List.mem_cons.mp hx with rfl | hx'
      · exact hle
      · exact hall x hx'

theorem lookupT_append (t t' : Nat) (r : Offer) (m : List (Nat × Offer)) :
    lookupT t (m ++ [(t', r)]) =
      match lookupT t m with
      | some x => some x
      | none => if t' = t then some r else none := by
  induction m with
  | nil => simp [lookupT]
  | cons p m ih =>
    obtain ⟨u, x⟩ := p
    by_cases h : u = t
    · simp [lookupT, h]
    · simpa [lookupT, h] using ih


theorem lookupT_cons (t u : Nat) (x : Offer) (m : List (Nat × Offer)) :
    lookupT t ((u, x) :: m) = if u = t then some x else lookupT t m := rfl

theorem setT_cons (t : Nat) (r : Offer) (u : Nat) (x : Offer) (m : List (Nat × Offer)) :
    setT t r ((u, x) :: m) = (if u = t then (t, r) else (u, x)) :: setT t r m := rfl

theorem lookupT_setT_self (t : Nat) (r : Offer) (m : List (Nat × Offer)) (b : Offer)
    (h : lookupT t m = some b) : lookupT t (setT t r m) = some r := by
  induction m with
  | nil => simp [lookupT] at h
  | cons p m ih =>
    obtain ⟨u, x⟩ := p
    rw [setT_cons]
    by_cases hu : u = t
    · rw [if_pos hu, lookupT_cons, if_pos rfl]
    · rw [if_neg hu, lookupT_cons, if_neg hu]
      rw [lookupT_cons, if_neg hu] at h
      exact ih h

theorem lookupT_setT_ne (t t' : Nat) (r : Offer) (m : List (Nat × Offer))
    (h : t' ≠ t) : lookupT t (setT t' r m) = lookupT t m := by
  induction m with
  | nil => rfl
  | cons p m ih =>
    obtain ⟨u, x⟩ := p
    rw [setT_cons, lookupT_cons]
    by_cases hu : u = t'
    · rw [if_pos hu, lookupT_cons, if_neg h, ih]
      rw [hu, if_neg h]
    · rw [if_neg hu, lookupT_cons]
      by_cases hut : u = t
      · rw [if_pos hut, if_pos hut]
      · rw [if_neg hut, if_neg hut, ih]

theorem perTermStep_noterm (m : List (Nat × Offer)) (r : Offer)
    (h : r.term_months = none) : perTermStep m r = m := by
  simp [perTermStep, h]

theorem perTermStep_new (m : List (Nat × Offer)) (r : Offer) (t' : Nat)
    (h : r.term_months = some t') (h2 : lookupT t' m = none) :
    perTermStep m r = m ++ [(t', r)] := by
  simp [perTermStep, h, h2]

theorem perTermStep_found (m : List (Nat × Offer)) (r : Offer) (t' : Nat) (b : Offer)
    (h : r.term_months = some t') (h2 : lookupT t' m = some b) :
    perTermStep m r = if perTermKey r < perTermKey b then setT t' r m else m := by
  simp [perTermStep, h, h2]

theorem lookupT_perTermStep (t : Nat) (m : List (Nat × Offer)) (r : Offer) :
    lookupT t (perTermStep m r) =
      if r.term_months = some t then minStep perTermKey (lookupT t m) r
      else lookupT t m := by
  rcases hterm : r.term_months with - | t'
  · rw [perTermStep_noterm m r hterm, if_neg (by simp [hterm])]
  · by_cases heq : t' = t
    · subst heq
      rw [if_pos rfl]
      rcases hl : lookupT t' m with - | b
      · rw [perTermStep_new m r t' hterm hl, lookupT_append, hl]
        simp [minStep]
      · rw [perTermStep_found m r t' b hterm hl]
        by_cases hk : perTermKey r < perTermKey b
        · rw [if_pos hk, lookupT_setT_self t' r m b hl]
          simp [minStep, hk]
        · rw [if_neg hk]
          simp [minStep, hl, hk]
    · rw [if_neg (by simp [heq])]
      rcases hl : lookupT t' m with - | b
      · rw [perTermStep_new m r t' hterm hl, lookupT_append]
        rcases lookupT t m with - | x
        · simp [heq]
        · simp
      · rw [perTermStep_found m r t' b hterm hl]
        by_cases hk : perTermKey r < perTermKey b
        · rw [if_pos hk, lookupT_setT_ne t t' r m heq]
        · rw [if_neg hk]

theorem lookupT_foldl (t : Nat) :
    ∀ (l : List Offer) (m : List (Nat × Offer)),
      lookupT t (l.foldl perTermStep m) =
        (l.filter (fun r => decide (r.term_months = some t))).foldl
          (minStep perTermKey) (lookupT t m) := by
  intro l
  induction l with
  | nil => intro m; rfl
  | cons r l ih =>
    intro m
    rw [List.foldl_cons, ih]
    by_cases h : r.term_months = some t
    · rw [List.filter_cons_of_pos (by simpa using h), List.foldl_cons,
        lookupT_perTermStep, if_pos h]
    · rw [List.filter_cons_of_neg (by simpa using h), lookupT_perTermStep, if_neg h]

theorem lookupT_fold_eq_pyMinBy (t : Nat) (l : List Offer) :
    lookupT t (l.foldl perTermStep []) =
      pyMinBy perTermKey (l.filter (fun r => decide (r.term_months = some t))) := by
  rw [lookupT_foldl]
  rfl

theorem lookupT_eq_none_iff (t : Nat) (m : List (Nat × Offer)) :
    lookupT t m = none ↔ t ∉ m.map Prod.fst := by
  induction m with
  | nil => simp [lookupT]
  | cons p m ih =>
    obtain ⟨u, x⟩ := p
    rw [lookupT_cons]
    by_cases h : u = t
    · subst h
      simp
    · rw [if_neg h, ih]
      simp only [List.map_cons, List.mem_cons, not_or]
      exact ⟨fun hni => ⟨fun hc => h hc.symm, hni⟩, fun hp => hp.2⟩

theorem setT_keys (t : Nat) (r : Offer) (m : List (Nat × Offer)) :
    (setT t r m).map Prod.fst = m.map Prod.fst := by
  induction m with
  | nil => rfl
  | cons p m ih =>
    obtain ⟨u, x⟩ := p
    rw [setT_cons]
    by_cases h : u = t
    · subst h
      rw [if_pos rfl]
      simpa using ih
    · rw [if_neg h]
      simpa using ih

theorem perTermStep_keys_nodup (m : List (Nat × Offer)) (r : Offer)
    (h : (m.map Prod.fst).Nodup) : ((perTermStep m r).map Prod.fst).Nodup := by
  rcases hterm : r.term_months with - | t'
  · rw [perTermStep_noterm m r hterm]; exact h
  · rcases hl : lookupT t' m with - | b
    · have hni : t' ∉ m.map Prod.fst := (lookupT_eq_none_iff t' m).mp hl
      rw [perTermStep_new m r t' hterm hl, List.map_append, List.nodup_append]
      refine ⟨h, List.nodup_singleton _, ?_⟩
      intro a ha hb
      simp only [List.map_cons, List.map_nil, List.mem_singleton] at hb
      exact hni (hb ▸ ha)
    · rw [perTermStep_found m r t' b hterm hl]
      by_cases hk : perTermKey r < perTermKey b
      · rw [if_pos hk, setT_keys]; exact h
      · rw [if_neg hk]; exact h

theorem foldl_perTermStep_keys_nodup :
    ∀ (l : List Offer) (m : List (Nat × Offer)),
      (m.map Prod.fst).Nodup → ((l.foldl perTermStep m).map Prod.fst).Nodup := by
  intro l
  induction l with
  | nil => exact fun m h => h
  | cons r l ih =>
    intro m h
    exact ih _ (perTermStep_keys_nodup m r h)

theorem filterMap_lookup_terms (m : List (Nat × Offer)) :
    ∀ ts : List Nat,
      (∀ t ∈ ts, ∃ o, lookupT t m = some o ∧ o.term_months = some t) →
      (ts.filterMap (fun t => lookupT t m)).filterMap (fun o => o.term_months) = ts := by
  intro ts
  induction ts with
  | nil => intro _; rfl
  | cons t ts ih =>
    intro h
    obtain ⟨o, ho, hot⟩ := h t (List.mem_cons_self _ _)
    simp only [List.filterMap_cons, ho, hot]
    rw [ih (fun t' ht' => h t' (List.mem_cons_of_mem _ ht'))]

theorem lookupT_choose_per_term (rows : List Offer) (t : Nat) :
    lookupT t ((rows.filter selOk).foldl perTermStep []) =
      pyMinBy perTermKey
        ((rows.filter selOk).filter (fun r => decide (r.term_months = some t))) :=
  lookupT_fold_eq_pyMinBy t (rows.filter selOk)

theorem lookupT_spec_choose_per_term (rows : List Offer) (t : Nat) (o : Offer)
    (h : lookupT t ((rows.filter selOk).foldl perTermStep []) = some o) :
    o.term_months = some t ∧ o ∈ rows ∧ selOk o = true ∧
      ∀ r ∈ rows, selOk r = true → r.term_months = some t →
        perTermKey o ≤ perTermKey r := by
  rw [lookupT_choose_per_term] at h
  obtain ⟨hmem, hall⟩ := pyMinBy_spec _ _ _ h
  rw [List.mem_filter] at hmem
  obtain ⟨hmf, hterm⟩ := hmem
  rw [List.mem_filter] at hmf
  have hterm' : o.term_months = some t := by simpa using hterm
  refine ⟨hterm', hmf.1, hmf.2, ?_⟩
  intro r hr hsel hrt
  exact hall r (List.mem_filter.mpr ⟨List.mem_filter.mpr ⟨hr, hsel⟩, by simpa using hrt⟩)

/-- C4: for every list of offer records, `choose_lowest_per_term` yields
exactly one offer per distinct `term_months` value present among the
selectable offers that have a term (selectable = qualifying with a parsed
price); offers with an absent term are excluded; each reported offer is a
minimum of its term group by `(price ascending, supplier ascending)`;
and the results come in strictly ascending term order. -/
theorem c4_choose_per_term_spec (rows : List Offer) :
    ((choose_lowest_per_term rows).filterMap (fun o => o.term_months)).Sorted (· < ·) ∧
    (∀ t : Nat,
      t ∈ (choose_lowest_per_term rows).filterMap (fun o => o.term_months) ↔
        ∃ r ∈ rows, selOk r = true ∧ r.term_months = some t) ∧
    (∀ o ∈ choose_lowest_per_term rows, ∃ t : Nat, o.term_months = some t ∧
      o ∈ rows ∧ selOk o = true ∧
      ∀ r ∈ rows, selOk r = true → r.term_months = some t →
        perTermKey o ≤ perTermKey r) := by
  have hres : choose_lowest_per_term rows =
      (List.insertionSort (· ≤ ·)
        (((rows.filter selOk).foldl perTermStep []).map Prod.fst)).filterMap
        (fun t => lookupT t ((rows.filter selOk).foldl perTermStep [])) := rfl
  have hperm :
      List.Perm
        (List.insertionSort (· ≤ ·)
          (((rows.filter selOk).foldl perTermStep []).map Prod.fst))
        (((rows.filter selOk).foldl perTermStep []).map Prod.fst) :=
    List.perm_insertionSort _ _
  have hkeys_ex : ∀ t ∈ List.insertionSort (· ≤ ·)
      (((rows.filter selOk).foldl perTermStep []).map Prod.fst),
      ∃ o, lookupT t ((rows.filter selOk).foldl perTermStep []) = some o ∧
        o.term_months = some t := by
    intro t ht
    have hk : t ∈ (((rows.filter selOk).foldl perTermStep []).map Prod.fst) :=
      hperm.mem_iff.mp ht
    rcases hcase : lookupT t ((rows.filter selOk).foldl perTermStep []) with - | o
    · exact absurd hk ((lookupT_eq_none_iff _ _).mp hcase)
    · exact ⟨o, rfl, (lookupT_spec_choose_per_term rows t o hcase).1⟩
  have hterms : (choose_lowest_per_term rows).filterMap (fun o => o.term_months) =
      List.insertionSort (· ≤ ·)
        (((rows.filter selOk).foldl perTermStep []).map Prod.fst) := by
    rw [hres]
    exact filterMap_lookup_terms _ _ hkeys_ex
  refine ⟨?_, ?_, ?_⟩
  · rw [hterms]
    have hsle : (List.insertionSort (· ≤ ·)
        (((rows.filter selOk).foldl perTermStep []).map Prod.fst)).Sorted (· ≤ ·) :=
      List.sorted_insertionSort _ _
    have hnd : (List.insertionSort (· ≤ ·)
        (((rows.filter selOk).foldl perTermStep []).map Prod.fst)).Nodup :=
      hperm.nodup_iff.mpr (foldl_perTermStep_keys_nodup (rows.filter selOk) [] (by simp))
    exact (hsle.and hnd).imp (fun h => lt_of_le_of_ne h.1 h.2)
  · intro t
    rw [hterms]
    rw [hperm.mem_iff]
    constructor
    · intro hk
      rcases hcase : lookupT t ((rows.filter selOk).foldl perTermStep []) with - | o
      · exact absurd hk ((lookupT_eq_none_iff _ _).mp hcase)
      · obtain ⟨-, hmem, hsel, -⟩ := lookupT_spec_choose_per_term rows t o hcase
        exact ⟨o, hmem, hsel, (lookupT_spec_choose_per_term rows t o hcase).1⟩
    · rintro ⟨r, hr, hsel, hterm⟩
      by_contra hk
      have hnone : lookupT t ((rows.filter selOk).foldl perTermStep []) = none :=
        (lookupT_eq_none_iff _ _).mpr hk
      rw [lookupT_choose_per_term, pyMinBy_eq_none_iff] at hnone
      have : r ∈ (rows.filter selOk).filter
          (fun r => decide (r.term_months = some t)) :=
        List.mem_filter.mpr ⟨List.mem_filter.mpr ⟨hr, hsel⟩, by simpa using hterm⟩
      rw [hnone] at this
      exact absurd this (List.not_mem_nil r)
  · intro o ho
    rw [hres] at ho
    obtain ⟨t, -, hlk⟩ := List.mem_filterMap.mp ho
    obtain ⟨hterm, hmem, hsel, hmin⟩ := lookupT_spec_choose_per_term rows t o hlk
    exact ⟨t, hterm, hmem, hsel, hmin⟩

/-- Witness for C4 at a concrete input: two 12-month offers at the same
price and one 36-month offer; the 12-month group is won by the
alphabetically first supplier and terms are reported ascending. -/
theorem c4_choose_per_term_spec_witness :
    (12 : Nat) ∈ (choose_lowest_per_term
        [fxOffer "Zeta" 1 (some 12), winner36, fxOffer "Alpha" 1 (some 12)]).filterMap
        (fun o => o.term_months) ∧
    ((choose_lowest_per_term
        [fxOffer "Zeta" 1 (some 12), winner36, fxOffer "Alpha" 1 (some 12)]).filterMap
        (fun o => o.term_months)).Sorted (· < ·) := by
  refine ⟨?_, (c4_choose_per_term_spec _).1⟩
  exact ((c4_choose_per_term_spec _).2.1 12).mpr
    ⟨fxOffer "Alpha" 1 (some 12), by decide, by decide, by decide⟩

/-- C3 counterexample: the claim's sort key treats an absent term as minus
infinity, so at equal price an offer with term `0` should strictly beat an
offer with no term; but `choose_lowest` (whose key coerces both
`None` and `0` to `-1` via the Python expression `term_months or -1`)
returns the no-term offer when it comes first, an offer that is not minimal
for the claimed key. -/
theorem c3_counterexample :
    choose_lowest [c3NoTerm, c3ZeroTerm] = some c3NoTerm ∧
    c3ZeroTerm ∈ [c3NoTerm, c3ZeroTerm] ∧ selOk c3ZeroTerm = true ∧
    specOverallKey c3ZeroTerm < specOverallKey c3NoTerm := by
  refine ⟨by decide, by decide, by decide, by decide⟩

/-- C3 (amended): `choose_lowest` returns `none` iff no qualifying offer has
a parsed price; otherwise it returns a qualifying offer minimal by the key
(price ascending, `-(term_months or -1)` ascending — i.e. term descending
with an absent OR ZERO term coerced to `-1`, below every positive term), so
among equal lowest prices the longer positive term wins (terms 12 vs 24 at
price $0.0650 select the 24-month offer), and it never returns a
non-qualifying offer. -/
theorem c3_choose_overall_spec (rows : List Offer) :
    (choose_lowest rows = none ↔ ¬ ∃ r ∈ rows, selOk r = true) ∧
    (∀ o : Offer, choose_lowest rows = some o →
      o ∈ rows ∧ selOk o = true ∧
      ∀ r ∈ rows, selOk r = true → overallKey o ≤ overallKey r) ∧
    choose_lowest [tieOffer12, tieOffer24] = some tieOffer24 := by
  refine ⟨?_, ?_, by decide⟩
  · rw [choose_lowest, pyMinBy_eq_none_iff, List.filter_eq_nil_iff]
    constructor
    · rintro h ⟨r, hr, hsel⟩
      exact absurd hsel (by simpa using h r hr)
    · intro h r hr
      have hnt : ¬ selOk r = true := fun hsel => h ⟨r, hr, hsel⟩
      simpa using hnt
  · intro o h
    obtain ⟨hmem, hall⟩ := pyMinBy_spec _ _ _ h
    rw [List.mem_filter] at hmem
    exact ⟨hmem.1, hmem.2, fun r hr hsel => hall r (List.mem_filter.mpr ⟨hr, hsel⟩)⟩

/-- Witness for C3 (amended) at a concrete input: the equal-price 12/24
tie resolves to the 24-month offer, which the theorem certifies as a member
and qualifying. -/
theorem c3_choose_overall_spec_witness :
    tieOffer24 ∈ [tieOffer12, tieOffer24] ∧ selOk tieOffer24 = true := by
  have h := (c3_choose_overall_spec [tieOffer12, tieOffer24]).2.1 tieOffer24
    (c3_choose_overall_spec [tieOffer12, tieOffer24]).2.2
  exact ⟨h.1, h.2.1⟩

/-- C10: in `choose_lowest`, an offer with `term_months = 0` gets the same
sort key as one with an absent term (Python `0 or -1` and `None or -1` both
give `-1`), so for two qualifying offers at the same price, one with term 0
and one with no term, neither is preferred and input order decides. -/
theorem c10_zero_term_ties_absent (a b : Offer)
    (ha : a.term_months = some 0) (hb : b.term_months = none)
    (hp : a.price_dollars_per_kwh = b.price_dollars_per_kwh)
    (hsa : selOk a = true) (hsb : selOk b = true) :
    overallKey a = overallKey b ∧
    choose_lowest [a, b] = some a ∧ choose_lowest [b, a] = some b := by
  have hkey : overallKey a = overallKey b := by
    rw [overallKey, overallKey, priceVal, priceVal, ha, hb, hp]
    norm_num [pyOrNeg1]
  have hfab : [a, b].filter selOk = [a, b] := by
    simp [List.filter, hsa, hsb]
  have hfba : [b, a].filter selOk = [b, a] := by
    simp [List.filter, hsa, hsb]
  refine ⟨hkey, ?_, ?_⟩
  · rw [choose_lowest, hfab]
    simp [pyMinBy, minStep, hkey]
  · rw [choose_lowest, hfba]
    simp [pyMinBy, minStep, hkey]

/-- Witness for C10 at concrete offers: term-0 and no-term offers at the
same price $0.05; the first of the two input orders wins each time. -/
theorem c10_zero_term_ties_absent_witness :
    overallKey c3ZeroTerm = overallKey c3NoTerm ∧
    choose_lowest [c3ZeroTerm, c3NoTerm] = some c3ZeroTerm ∧
    choose_lowest [c3NoTerm, c3ZeroTerm] = some c3NoTerm :=
  c10_zero_term_ties_absent c3ZeroTerm c3NoTerm rfl rfl rfl (by decide) (by decide)

/-- C2: `qualifies_v2` is false whenever the lower-cased rate type starts
with "variable" regardless of the fee fields, false whenever either parsed
fee amount is absent or differs from an exact zero, and true otherwise:
only an explicit successfully-parsed zero in both fee fields qualifies. -/
theorem c2_qualifies_spec (r : Offer) :
    (startsWithCh "variable".data (pyLower r.rate_type).data = true →
      qualifies_v2 r = false) ∧
    (r.etf_amount ≠ some 0 → qualifies_v2 r = false) ∧
    (r.monthly_fee_amount ≠ some 0 → qualifies_v2 r = false) ∧
    (startsWithCh "variable".data (pyLower r.rate_type).data = false →
      r.etf_amount = some 0 → r.monthly_fee_amount = some 0 →
      qualifies_v2 r = true) := by
  refine ⟨?_, ?_, ?_, ?_⟩
  · intro h
    simp [qualifies_v2, h]
  · intro h
    by_cases hv : startsWithCh "variable".data (pyLower r.rate_type).data
    · simp [qualifies_v2, hv]
    · simp [qualifies_v2, hv, h]
  · intro h
    by_cases hv : startsWithCh "variable".data (pyLower r.rate_type).data
    · simp [qualifies_v2, hv]
    · simp [qualifies_v2, hv, h]
  · intro hv h1 h2
    simp [qualifies_v2, hv, h1, h2]

/-- Witness for C2 at concrete offers: a variable-rate offer with zero fees
is rejected; a fixed-rate offer with both fees parsed as zero qualifies. -/
theorem c2_qualifies_spec_witness :
    qualifies_v2 varOffer = false ∧ qualifies_v2 (fxOffer "Good Co" 1 none) = true :=
  ⟨(c2_qualifies_spec varOffer).1 (by decide),
   (c2_qualifies_spec (fxOffer "Good Co" 1 none)).2.2.2 (by decide) (by decide) (by decide)⟩

/-- C1 (divergence witness): the spec's matcher example evaluated on the
code.  Rule: threshold $0.07 with term qualifier "12-24"; per-term winners:
12 months at $0.0650 and 36 months at $0.0600.  The scanner's alert loop
(apples_v2.py:470) filters winners by price alone and `load_alerts`
(apples_v2.py:321) never reads a `term_expr` column, so BOTH winners trip;
yet the qualifier parses to the inclusive range [12, 24], which excludes
the 36-month winner, so per the claim only the 12-month winner may trip. -/
theorem c1_matcher_ignores_qualifier :
    alert_tripped [winner12, winner36] (7/100) = [winner12, winner36] ∧
    winner36 ∈ alert_tripped [winner12, winner36] (7/100) ∧
    winner36.term_months = some 36 ∧
    parse_term_expression "12-24" = some (some 12, some 24) ∧
    ¬ ((36 : ℚ) ≤ 24) := by
  refine ⟨by decide, by decide, by decide, by decide, by norm_num⟩

/-! ## Lemmas for the money parser (C9) -/

theorem searchSignedDecimal_eq_none_iff (l : List Char) :
    searchSignedDecimal l = none ↔ ∀ c ∈ l, c.isDigit = false := by
  have hdig : ('-' : Char).isDigit = false := by decide
  induction l with
  | nil => simp [searchSignedDecimal]
  | cons c rest ih =>
    by_cases hd : c.isDigit
    · simp [searchSignedDecimal, hd]
    · by_cases hm : c = '-'
      · subst hm
        cases rest with
        | nil => simp [searchSignedDecimal, hdig]
        | cons d rest2 =>
          by_cases hdd : d.isDigit
          · simp [searchSignedDecimal, hdig, hdd]
          · have hstep : searchSignedDecimal ('-' :: d :: rest2) =
                searchSignedDecimal (d :: rest2) := by
              simp [searchSignedDecimal, hdig, hdd]
            rw [hstep]
            constructor
            · intro h x hx
              rcases List.mem_cons.mp hx with rfl | hx2
              · exact hdig
              · exact (ih.mp h) x hx2
            · intro h
              exact ih.mpr (fun x hx => h x (List.mem_cons_of_mem _ hx))
      · have hstep : searchSignedDecimal (c :: rest) = searchSignedDecimal rest := by
          simp [searchSignedDecimal, hd, hm]
        rw [hstep]
        constructor
        · intro h x hx
          rcases List.mem_cons.mp hx with rfl | hx2
          · simpa using hd
          · exact (ih.mp h) x hx2
        · intro h
          exact ih.mpr (fun x hx => h x (List.mem_cons_of_mem _ hx))

theorem digit_not_ws (c : Char) (h : c.isDigit = true) : c.isWhitespace = false := by
  cases hw : c.isWhitespace
  · rfl
  · exfalso
    have hw' := hw
    simp [Char.isWhitespace] at hw'
    rcases hw' with ((rfl | rfl) | rfl) | rfl <;> exact absurd h (by decide)

theorem mem_dropWhile_ws {c : Char} (hc : c.isWhitespace = false) :
    ∀ l : List Char, c ∈ l → c ∈ l.dropWhile Char.isWhitespace := by
  intro l
  induction l with
  | nil => intro h; exact absurd h (List.not_mem_nil c)
  | cons a rest ih =>
    intro h
    by_cases ha : a.isWhitespace
    · rw [List.dropWhile_cons_of_pos ha]
      rcases List.mem_cons.mp h with rfl | h2
      · exact absurd ha (by simp [hc])
      · exact ih h2
    · rw [List.dropWhile_cons_of_neg ha]
      exact h

theorem pyStripChars_subset (l : List Char) : ∀ c ∈ pyStripChars l, c ∈ l := by
  intro c hc
  unfold pyStripChars trimLeadWs at hc
  have h1 := List.mem_reverse.mp hc
  have h2 : c ∈ (l.dropWhile Char.isWhitespace).reverse :=
    (List.dropWhile_sublist _).subset h1
  have h3 := List.mem_reverse.mp h2
  exact (List.dropWhile_sublist _).subset h3

theorem digit_mem_pyStrip {c : Char} (hws : c.isWhitespace = false) {l : List Char}
    (hc : c ∈ l) : c ∈ pyStripChars l := by
  unfold pyStripChars trimLeadWs
  rw [List.mem_reverse]
  apply mem_dropWhile_ws hws
  rw [List.mem_reverse]
  exact mem_dropWhile_ws hws l hc

/-- C9: `parse_money_to_float` returns none exactly when the trimmed text is
a recognized placeholder token or the text contains no digit at all;
otherwise it returns the value of the first signed decimal substring.  In
particular "—" parses to none while "$0.00" parses to 0, so under the
qualification policy an offer whose fee cell read "—" is disqualified while
one whose fee cells read "$0.00" is not. -/
theorem c9_money_parser_spec (s : String) :
    (parse_money_to_float s = none ↔
      (pyStrip s ∈ moneyPlaceholders ∨ ∀ c ∈ s.data, c.isDigit = false)) ∧
    parse_money_to_float "—" = none ∧
    parse_money_to_float "$0.00" = some 0 ∧
    qualifies_v2 dashFeeOffer = false ∧
    qualifies_v2 zeroFeeOffer = true := by
  refine ⟨?_, by decide, by decide, by decide, by decide⟩
  by_cases hs : s = ""
  · subst hs
    have hdata : ("" : String).data = [] := rfl
    simp [parse_money_to_float, hdata]
  · simp only [parse_money_to_float]
    rw [if_neg hs]
    by_cases hp : (⟨pyStripChars s.data⟩ : String) ∈ moneyPlaceholders
    · rw [if_pos hp]
      exact iff_of_true rfl (Or.inl hp)
    · rw [if_neg hp, searchSignedDecimal_eq_none_iff]
      constructor
      · intro h
        right
        intro c hc
        by_contra hcd
        have hcd' : c.isDigit = true := by simpa using hcd
        have hws : c.isWhitespace = false := digit_not_ws c hcd'
        have h1 : c ∈ pyStripChars s.data := digit_mem_pyStrip hws hc
        have h2 : c ∈ (⟨pyStripChars s.data⟩ : String).data.filter
            (fun c => c ≠ ',') := by
          rw [List.mem_filter]
          refine ⟨h1, ?_⟩
          have hcne : c ≠ ',' := by
            intro hcc
            subst hcc
            exact absurd hcd' (by decide)
          simpa using hcne
        have hcf := h c h2
        rw [hcd'] at hcf
        exact absurd hcf (by simp)
      · intro h
        rcases h with hp2 | hnd
        · exact absurd (by simpa [pyStrip] using hp2) hp
        · intro c hc
          rw [List.mem_filter] at hc
          exact hnd c (pyStripChars_subset s.data c hc.1)

/-- Witness for C9 at a concrete input: the placeholder "—" yields an
absent amount. -/
theorem c9_money_parser_spec_witness :
    parse_money_to_float "—" = none ∧ parse_money_to_float "$0.00" = some 0 :=
  ⟨(c9_money_parser_spec "—").2.1, (c9_money_parser_spec "$0.00").2.2.1⟩

/-! ## Lemmas for the table locator and extractor (C7, C8) -/

theorem find_offers_table_none_iff (doc : HtmlDoc) :
    find_offers_table doc = none ↔ ∀ t ∈ doc, headerOk t = false := by
  induction doc with
  | nil => simp [find_offers_table]
  | cons a rest ih =>
    by_cases ha : headerOk a
    · simp [find_offers_table, ha]
    · simp [find_offers_table, ha, ih]

theorem find_offers_table_some_spec (doc : HtmlDoc) :
    ∀ tbl hs, find_offers_table doc = some (tbl, hs) →
      hs = tableHeaders tbl ∧ headerOk tbl = true ∧
      ∃ pre post, doc = pre ++ tbl :: post ∧ ∀ u ∈ pre, headerOk u = false := by
  induction doc with
  | nil =>
    intro tbl hs h
    exact absurd h (by simp [find_offers_table])
  | cons a rest ih =>
    intro tbl hs h
    by_cases ha : headerOk a
    · simp only [find_offers_table] at h
      rw [if_pos ha, Option.some.injEq, Prod.mk.injEq] at h
      obtain ⟨rfl, rfl⟩ := h
      exact ⟨rfl, ha, [], rest, rfl, by simp⟩
    · simp only [find_offers_table] at h
      rw [if_neg ha] at h
      obtain ⟨h1, h2, pre, post, hdoc, hpre⟩ := ih tbl hs h
      refine ⟨h1, h2, a :: pre, post, by rw [hdoc]; rfl, ?_⟩
      intro u hu
      rcases List.mem_cons.mp hu with rfl | hu2
      · simpa using ha
      · exact hpre u hu2

/-- C7: the table locator scans tables in document order, derives each
table's headers from the header row when present, else the first row's
cells, normalizes them (all inside `tableHeaders`), and selects the first
table whose headers contain both `price` and `supplier`; extraction fails
with the fixed no-offers-table error exactly when no table qualifies — a
terminal failure for the run that carries no partial offer list and is
distinguishable by the caller through its fixed message. -/
theorem c7_table_locator_spec (doc : HtmlDoc) :
    (∀ tbl hs, find_offers_table doc = some (tbl, hs) →
      hs = tableHeaders tbl ∧
      "price" ∈ tableHeaders tbl ∧ "supplier" ∈ tableHeaders tbl ∧
      ∃ pre post, doc = pre ++ tbl :: post ∧ ∀ u ∈ pre, headerOk u = false) ∧
    (find_offers_table doc = none ↔ ∀ t ∈ doc, headerOk t = false) ∧
    (∀ e, extract_rows doc = .error e ↔
      find_offers_table doc = none ∧ e = noTableMsg) := by
  refine ⟨?_, find_offers_table_none_iff doc, ?_⟩
  · intro tbl hs h
    obtain ⟨h1, h2, hex⟩ := find_offers_table_some_spec doc tbl hs h
    simp only [headerOk] at h2
    have h2' := of_decide_eq_true h2
    exact ⟨h1, h2'.1, h2'.2, hex⟩
  · intro e
    rcases hf : find_offers_table doc with - | p
    · simp [extract_rows, hf, eq_comm]
    · obtain ⟨tbl, hs⟩ := p
      simp [extract_rows, hf]

/-- Witness for C7 at a concrete document: a non-qualifying table followed
by the demo offers table; the locator picks the second and certifies the
first failed the header test. -/
theorem c7_table_locator_spec_witness :
    "price" ∈ tableHeaders demoTable ∧ "supplier" ∈ tableHeaders demoTable ∧
    ∃ pre post, ([badTable, demoTable] : HtmlDoc) = pre ++ demoTable :: post ∧
      ∀ u ∈ pre, headerOk u = false := by
  have h := (c7_table_locator_spec [badTable, demoTable]).1 demoTable
    (tableHeaders demoTable) (by decide)
  exact ⟨h.2.1, h.2.2.1, h.2.2.2⟩

theorem rowToOffer_some_spec (headers : List String) (tr : HRow) (o : Offer)
    (h : rowToOffer headers tr = some o) :
    o.supplier ≠ "" ∧ o.price_dollars_per_kwh.isSome = true := by
  simp only [rowToOffer] at h
  split at h
  · exact absurd h (by simp)
  · split at h
    next h3 => exact absurd h (by simp)
    next h3 =>
      push_neg at h3
      rw [Option.some.injEq] at h
      subst h
      refine ⟨h3.1, ?_⟩
      exact Option.isSome_iff_ne_none.mpr h3.2

/-- C8: whenever a table is located, extraction succeeds (rows that fail
the supplier/price requirement are silently discarded, never an error), and
every record in the returned offer list has a non-empty supplier and a
parsed price; all other fields may be absent, as the concrete one-column
table shows. -/
theorem c8_extract_invariant (doc : HtmlDoc) :
    (find_offers_table doc ≠ none → ∃ rows, extract_rows doc = .ok rows) ∧
    (∀ rows, extract_rows doc = .ok rows →
      ∀ o ∈ rows, o.supplier ≠ "" ∧ o.price_dollars_per_kwh.isSome = true) ∧
    extract_rows [tinyTable] =
      .ok [{ supplier := "Solo", price_dollars_per_kwh := some (mkRat 9 100),
             rate_type := "", term_months := none, etf := "", etf_amount := none,
             monthly_fee := "", monthly_fee_amount := none, renewable := "",
             promo := "", intro_price := "" }] := by
  refine ⟨?_, ?_, rfl⟩
  · intro h
    rcases hf : find_offers_table doc with - | p
    · exact absurd hf h
    · obtain ⟨tbl, hs⟩ := p
      exact ⟨(trsUsed tbl).filterMap (rowToOffer hs), by simp [extract_rows, hf]⟩
  · intro rows h o ho
    rcases hf : find_offers_table doc with - | p
    · simp [extract_rows, hf] at h
    · obtain ⟨tbl, hs⟩ := p
      simp only [extract_rows, hf, Except.ok.injEq] at h
      subst h
      obtain ⟨tr, -, htr⟩ := List.mem_filterMap.mp ho
      exact rowToOffer_some_spec hs tr o htr

/-- Witness for C8 at a concrete document: the demo document extracts
successfully once a table is located. -/
theorem c8_extract_invariant_witness :
    ∃ rows, extract_rows [badTable, demoTable] = .ok rows :=
  (c8_extract_invariant [badTable, demoTable]).1 (by decide)

/-! ## String fixpoint lemmas for the term-expression parser (C5, C6) -/

theorem strDataAppend (a b : String) : (a ++ b).data = a.data ++ b.data := by
  cases a
  cases b
  rfl

theorem startsWithCh_mem :
    ∀ pat s : List Char, startsWithCh pat s = true → ∀ c ∈ pat, c ∈ s := by
  intro pat
  induction pat with
  | nil => intro s _ c hc; exact absurd hc (List.not_mem_nil c)
  | cons p ps ih =>
    intro s h c hc
    cases s with
    | nil => exact absurd h (by simp [startsWithCh])
    | cons a as =>
      simp only [startsWithCh, Bool.and_eq_true, beq_iff_eq] at h
      rcases List.mem_cons.mp hc with rfl | hc2
      · rw [h.1]
        exact List.mem_cons_self _ _
      · exact List.mem_cons_of_mem _ (ih as h.2 c hc2)

theorem replaceAllAux_eq_self (pat rep : List Char) (c0 : Char) (hc0 : c0 ∈ pat) :
    ∀ fuel s, c0 ∉ s → replaceAllAux pat rep fuel s = s := by
  intro fuel
  induction fuel with
  | zero => intro s _; cases s <;> rfl
  | succ n ih =>
    intro s hs
    cases s with
    | nil => rfl
    | cons c rest =>
      have hpre : startsWithCh pat (c :: rest) = false := by
        cases hcase : startsWithCh pat (c :: rest)
        · rfl
        · exact absurd (startsWithCh_mem pat (c :: rest) hcase c0 hc0) hs
      rw [replaceAllAux, if_neg (by simp [hpre])]
      rw [ih rest (fun hmem => hs (List.mem_cons_of_mem _ hmem))]

theorem replaceAll_eq_self (pat rep s : List Char) (h : ∃ c ∈ pat, c ∉ s) :
    replaceAll pat rep s = s := by
  obtain ⟨c0, hc0, hns⟩ := h
  rw [replaceAll]
  by_cases hp : pat.isEmpty
  · rw [if_pos hp]
  · rw [if_neg hp]
    exact replaceAllAux_eq_self pat rep c0 hc0 s.length s hns

theorem dropWhile_ws_eq_self (l : List Char) (h : ∀ c ∈ l, c.isWhitespace = false) :
    l.dropWhile Char.isWhitespace = l := by
  cases l with
  | nil => rfl
  | cons c rest =>
    rw [List.dropWhile_cons_of_neg]
    simp [h c (List.mem_cons_self _ _)]

theorem pyStripChars_eq_self (l : List Char) (h : ∀ c ∈ l, c.isWhitespace = false) :
    pyStripChars l = l := by
  unfold pyStripChars trimLeadWs
  rw [dropWhile_ws_eq_self l h,
    dropWhile_ws_eq_self l.reverse (fun c hc => h c (List.mem_reverse.mp hc)),
    List.reverse_reverse]

theorem map_toLower_eq_self (l : List Char) (h : ∀ c ∈ l, c.toLower = c) :
    l.map Char.toLower = l := by
  induction l with
  | nil => rfl
  | cons c rest ih =>
    rw [List.map_cons, h c (List.mem_cons_self _ _),
      ih (fun x hx => h x (List.mem_cons_of_mem _ hx))]

theorem strip_lower_fix (l : List Char)
    (h : ∀ c ∈ l, c.toLower = c ∧ c.isWhitespace = false) :
    (pyStripChars l).map Char.toLower = l := by
  rw [pyStripChars_eq_self l (fun c hc => (h c hc).2),
    map_toLower_eq_self l (fun c hc => (h c hc).1)]

theorem term_clean_fix (l : List Char) (hm : 'm' ∉ l) (ht : 't' ∉ l)
    (hsp : ' ' ∉ l) :
    replaceAll " ".data "".data (replaceAll "to".data "-".data
      (replaceAll "mo".data "".data (replaceAll "mos".data "".data
        (replaceAll "month".data "".data
          (replaceAll "months".data "".data l))))) = l := by
  rw [replaceAll_eq_self "months".data "".data l ⟨'m', by decide, hm⟩,
    replaceAll_eq_self "month".data "".data l ⟨'m', by decide, hm⟩,
    replaceAll_eq_self "mos".data "".data l ⟨'m', by decide, hm⟩,
    replaceAll_eq_self "mo".data "".data l ⟨'m', by decide, hm⟩,
    replaceAll_eq_self "to".data "-".data l ⟨'t', by decide, ht⟩,
    replaceAll_eq_self " ".data "".data l ⟨' ', by decide, hsp⟩]

theorem numChar_facts (c : Char) (h : c ∈ numChars) :
    c.toLower = c ∧ c.isWhitespace = false ∧ c ≠ '=' ∧ c ≠ 'm' ∧ c ≠ 't' ∧
      c ≠ ' ' := by
  unfold numChars at h
  fin_cases h <;>
    exact ⟨by decide, by decide, by decide, by decide, by decide, by decide⟩

theorem termClean_fix (l : List Char) (hm : 'm' ∉ l) (ht : 't' ∉ l)
    (hsp : ' ' ∉ l) : termClean l = l := by
  unfold termClean
  exact term_clean_fix l hm ht hsp

set_option maxHeartbeats 1600000 in
theorem parse_term_cmp_general (s : String) (v : ℚ)
    (hnum : ∀ c ∈ s.data, c ∈ numChars)
    (hv : parseFloatChars s.data = some v) :
    parse_term_expression (">=" ++ s) = some (some v, none) ∧
    parse_term_expression (">" ++ s) = some (some (v + tinyEps), none) ∧
    v < v + tinyEps ∧
    parse_term_expression ("<=" ++ s) = some (none, some v) ∧
    parse_term_expression ("<" ++ s) = some (none, some (v - tinyEps)) ∧
    v - tinyEps < v := by
  have hfacts := fun c hc => numChar_facts c (hnum c hc)
  obtain ⟨c1, srest, hs_eq⟩ : ∃ c1 srest, s.data = c1 :: srest := by
    cases hsd : s.data with
    | nil =>
      rw [hsd] at hv
      rw [show parseFloatChars ([] : List Char) = none from rfl] at hv
      exact Option.noConfusion hv
    | cons a l => exact ⟨a, l, rfl⟩
  have hc1 : c1 ∈ numChars := hnum c1 (by rw [hs_eq]; exact List.mem_cons_self _ _)
  have hc1ne : c1 ≠ '=' := (numChar_facts c1 hc1).2.2.1
  have hm_s : 'm' ∉ s.data := fun hmem => (hfacts 'm' hmem).2.2.2.1 rfl
  have ht_s : 't' ∉ s.data := fun hmem => (hfacts 't' hmem).2.2.2.2.1 rfl
  have hsp_s : ' ' ∉ s.data := fun hmem => (hfacts ' ' hmem).2.2.2.2.2 rfl
  have hnotin2 : ∀ (x a b : Char), x ≠ a → x ≠ b → x ∉ s.data →
      x ∉ (a :: b :: s.data) := by
    intro x a b hxa hxb hxs h
    rcases List.mem_cons.mp h with rfl | h
    · exact hxa rfl
    rcases List.mem_cons.mp h with rfl | h
    · exact hxb rfl
    · exact hxs h
  have hnotin1 : ∀ (x a : Char), x ≠ a → x ∉ s.data → x ∉ (a :: s.data) := by
    intro x a hxa hxs h
    rcases List.mem_cons.mp h with rfl | h
    · exact hxa rfl
    · exact hxs h
  have hsl2 : ∀ a b : Char, a.toLower = a → b.toLower = b →
      a.isWhitespace = false → b.isWhitespace = false →
      (pyStripChars (a :: b :: s.data)).map Char.toLower = a :: b :: s.data := by
    intro a b ha hb ha2 hb2
    apply strip_lower_fix
    intro c hc
    rcases List.mem_cons.mp hc with rfl | hc
    · exact ⟨ha, ha2⟩
    rcases List.mem_cons.mp hc with rfl | hc
    · exact ⟨hb, hb2⟩
    · exact ⟨(hfacts c hc).1, (hfacts c hc).2.1⟩
  have hsl1 : ∀ a : Char, a.toLower = a → a.isWhitespace = false →
      (pyStripChars (a :: s.data)).map Char.toLower = a :: s.data := by
    intro a ha ha2
    apply strip_lower_fix
    intro c hc
    rcases List.mem_cons.mp hc with rfl | hc
    · exact ⟨ha, ha2⟩
    · exact ⟨(hfacts c hc).1, (hfacts c hc).2.1⟩
  have hd_ge : ((">=" : String) ++ s).data = '>' :: '=' :: s.data := by
    rw [strDataAppend]; rfl
  have hd_le : (("<=" : String) ++ s).data = '<' :: '=' :: s.data := by
    rw [strDataAppend]; rfl
  have hd_gt : ((">" : String) ++ s).data = '>' :: s.data := by
    rw [strDataAppend]; rfl
  have hd_lt : (("<" : String) ++ s).data = '<' :: s.data := by
    rw [strDataAppend]; rfl
  have key_ge : parse_term_expression (">=" ++ s) =
      match parseFloatChars s.data with
      | none => none
      | some w => some (some w, none) := by
    simp only [parse_term_expression]
    rw [hd_ge, hsl2 '>' '=' (by decide) (by decide) (by decide) (by decide),
      termClean_fix _ (hnotin2 'm' '>' '=' (by decide) (by decide) hm_s)
        (hnotin2 't' '>' '=' (by decide) (by decide) ht_s)
        (hnotin2 ' ' '>' '=' (by decide) (by decide) hsp_s)]
    rfl
  have key_le : parse_term_expression ("<=" ++ s) =
      match parseFloatChars s.data with
      | none => none
      | some w => some (none, some w) := by
    simp only [parse_term_expression]
    rw [hd_le, hsl2 '<' '=' (by decide) (by decide) (by decide) (by decide),
      termClean_fix _ (hnotin2 'm' '<' '=' (by decide) (by decide) hm_s)
        (hnotin2 't' '<' '=' (by decide) (by decide) ht_s)
        (hnotin2 ' ' '<' '=' (by decide) (by decide) hsp_s)]
    rfl
  have hcond_gt : ¬(List.take 2 ('>' :: c1 :: srest) = ['>', '='] ∨
      List.take 2 ('>' :: c1 :: srest) = ['<', '=']) := by
    rw [show List.take 2 ('>' :: c1 :: srest) = ['>', c1] from rfl]
    rintro (h | h)
    · simp only [List.cons.injEq] at h
      exact hc1ne h.2.1
    · simp only [List.cons.injEq] at h
      exact absurd h.1 (by decide)
  have hcond_lt : ¬(List.take 2 ('<' :: c1 :: srest) = ['>', '='] ∨
      List.take 2 ('<' :: c1 :: srest) = ['<', '=']) := by
    rw [show List.take 2 ('<' :: c1 :: srest) = ['<', c1] from rfl]
    rintro (h | h)
    · simp only [List.cons.injEq] at h
      exact absurd h.1 (by decide)
    · simp only [List.cons.injEq] at h
      exact hc1ne h.2.1
  have key_gt : parse_term_expression (">" ++ s) =
      match parseFloatChars (c1 :: srest) with
      | none => none
      | some w => some (some (w + tinyEps), none) := by
    simp only [parse_term_expression]
    rw [hd_gt, hsl1 '>' (by decide) (by decide),
      termClean_fix _ (hnotin1 'm' '>' (by decide) hm_s)
        (hnotin1 't' '>' (by decide) ht_s)
        (hnotin1 ' ' '>' (by decide) hsp_s),
      hs_eq]
    rw [termBranches, if_pos (show startsCmp ('>' :: c1 :: srest) = true from rfl)]
    rw [if_neg (show ¬('>' :: c1 :: srest = []) by simp)]
    simp only []
    rw [if_neg hcond_gt]
    rfl
  have key_lt : parse_term_expression ("<" ++ s) =
      match parseFloatChars (c1 :: srest) with
      | none => none
      | some w => some (none, some (w - tinyEps)) := by
    simp only [parse_term_expression]
    rw [hd_lt, hsl1 '<' (by decide) (by decide),
      termClean_fix _ (hnotin1 'm' '<' (by decide) hm_s)
        (hnotin1 't' '<' (by decide) ht_s)
        (hnotin1 ' ' '<' (by decide) hsp_s),
      hs_eq]
    rw [termBranches, if_pos (show startsCmp ('<' :: c1 :: srest) = true from rfl)]
    rw [if_neg (show ¬('<' :: c1 :: srest = []) by simp)]
    simp only []
    rw [if_neg hcond_lt]
    rfl
  have hv' : parseFloatChars (c1 :: srest) = some v := by
    rw [← hs_eq]; exact hv
  refine ⟨?_, ?_, ?_, ?_, ?_, ?_⟩
  · rw [key_ge, hv]
  · rw [key_gt, hv']
  · exact lt_add_of_pos_right v (by decide)
  · rw [key_le, hv]
  · rw [key_lt, hv']
  · exact sub_lt_self v (by decide)

/-- C5: the term-expression parser maps the representative inputs as the
spec states ("12+", "12-24", "3", ">=6", "", "12 months"), and for
comparator forms over any plain numeric text `v`: `>=v` gives `(v, none)`,
`>v` gives `(v + ε, none)` with a small positive ε excluding `v` itself,
`<=v` gives `(none, v)`, and `<v` gives `(none, v − ε)`. -/
theorem c5_term_parser_spec :
    parse_term_expression "12+" = some (some 12, none) ∧
    parse_term_expression "12-24" = some (some 12, some 24) ∧
    parse_term_expression "3" = some (some 3, some 3) ∧
    parse_term_expression ">=6" = some (some 6, none) ∧
    parse_term_expression "" = some (none, none) ∧
    parse_term_expression "12 months" = some (some 12, some 12) ∧
    0 < tinyEps ∧
    ∀ (s : String) (v : ℚ), (∀ c ∈ s.data, c ∈ numChars) →
      parseFloatChars s.data = some v →
      (parse_term_expression (">=" ++ s) = some (some v, none) ∧
       parse_term_expression (">" ++ s) = some (some (v + tinyEps), none) ∧
       v < v + tinyEps ∧
       parse_term_expression ("<=" ++ s) = some (none, some v) ∧
       parse_term_expression ("<" ++ s) = some (none, some (v - tinyEps)) ∧
       v - tinyEps < v) :=
  ⟨by decide, by decide, by decide, by decide, by decide, by decide,
    by decide, fun s v hnum hv => parse_term_cmp_general s v hnum hv⟩

/-- Witness for C5 at the concrete numeric text "6": the comparator forms
evaluate as the theorem states. -/
theorem c5_term_parser_spec_witness :
    parse_term_expression (">=" ++ "6") = some (some 6, none) ∧
    parse_term_expression ("<" ++ "6") = some (none, some (6 - tinyEps)) := by
  have h := c5_term_parser_spec.2.2.2.2.2.2.2 "6" 6 (by decide) (by decide)
  exact ⟨h.1, h.2.2.2.2.1⟩

/-- C6: a non-empty term qualifier is parsed synchronously inside the
create-alert handler before persistence; when the parse fails the handler
returns the invalid-term-expression outcome (never `created`) and the
alerts store is unchanged; and every row ever stored carries either no
qualifier or a non-empty qualifier that parses successfully. -/
theorem c6_create_alert_validation (db : List AlertRow)
    (nameF thresholdF emailF termF : String) (activeOn : Bool) (now : String) :
    (pyStrip termF ≠ "" → parse_term_expression (pyStrip termF) = none →
      (create_alert db nameF thresholdF emailF termF activeOn now).2 = db ∧
      (create_alert db nameF thresholdF emailF termF activeOn now).1 ≠
        CreateResult.created) ∧
    (pyStrip nameF ≠ "" → pyStrip thresholdF ≠ "" → pyStrip emailF ≠ "" →
      parseFloatChars (pyStrip thresholdF).data ≠ none →
      pyStrip termF ≠ "" → parse_term_expression (pyStrip termF) = none →
      create_alert db nameF thresholdF emailF termF activeOn now =
        (CreateResult.invalidTermExpr, db)) ∧
    (∀ row ∈ (create_alert db nameF thresholdF emailF termF activeOn now).2,
      row ∈ db ∨ ∀ e : String, row.term_expr = some e →
        e ≠ "" ∧ parse_term_expression e ≠ none) := by
  by_cases hempty : (pyStrip nameF = "" ∨ pyStrip thresholdF = "" ∨ pyStrip emailF = "")
  · have hca : create_alert db nameF thresholdF emailF termF activeOn now =
        (CreateResult.missingFields, db) := by
      simp only [create_alert]
      rw [if_pos hempty]
    refine ⟨?_, ?_, ?_⟩
    · intro _ _
      rw [hca]
      exact ⟨rfl, by simp⟩
    · intro hn ht he _ _ _
      rcases hempty with h | h | h
      · exact absurd h hn
      · exact absurd h ht
      · exact absurd h he
    · intro row hrow
      rw [hca] at hrow
      exact Or.inl hrow
  · rcases hthr : parseFloatChars (pyStrip thresholdF).data with - | q
    · have hca : create_alert db nameF thresholdF emailF termF activeOn now =
          (CreateResult.badThreshold, db) := by
        simp only [create_alert]
        rw [if_neg hempty, hthr]
      refine ⟨?_, ?_, ?_⟩
      · intro _ _
        rw [hca]
        exact ⟨rfl, by simp⟩
      · intro _ _ _ hthr2 _ _
        exact absurd rfl hthr2
      · intro row hrow
        rw [hca] at hrow
        exact Or.inl hrow
    · by_cases hterm : (pyStrip termF ≠ "" ∧ parse_term_expression (pyStrip termF) = none)
      · have hca : create_alert db nameF thresholdF emailF termF activeOn now =
            (CreateResult.invalidTermExpr, db) := by
          simp [create_alert, hempty, hthr, hterm.1, hterm.2]
        refine ⟨?_, ?_, ?_⟩
        · intro _ _
          rw [hca]
          exact ⟨rfl, by simp⟩
        · intro _ _ _ _ _ _
          exact hca
        · intro row hrow
          rw [hca] at hrow
          exact Or.inl hrow
      · have hca : create_alert db nameF thresholdF emailF termF activeOn now =
            (CreateResult.created,
              db ++ [{ name := pyStrip nameF, threshold := q,
                       email_to := pyStrip emailF,
                       term_expr := if pyStrip termF = "" then none
                         else some (pyStrip termF),
                       active := activeOn, created_at := now }]) := by
          simp [create_alert, hempty, hthr, hterm]
        refine ⟨?_, ?_, ?_⟩
        · intro hne hpar
          exact absurd ⟨hne, hpar⟩ hterm
        · intro _ _ _ _ hne hpar
          exact absurd ⟨hne, hpar⟩ hterm
        · intro row hrow
          rw [hca] at hrow
          rcases List.mem_append.mp hrow with h | h
          · exact Or.inl h
          · right
            intro e he
            rw [List.mem_singleton] at h
            subst h
            by_cases hte : pyStrip termF = ""
            · rw [if_pos hte] at he
              exact absurd he (by simp)
            · rw [if_neg hte] at he
              rw [Option.some.injEq] at he
              subst he
              refine ⟨hte, ?_⟩
              intro hpar
              exact hterm ⟨hte, hpar⟩

/-- Witness for C6 at a concrete request: qualifier "12-" (a range missing
its upper number) is rejected with `invalidTermExpr` and nothing is stored. -/
theorem c6_create_alert_validation_witness :
    create_alert [] "My rule" "0.07" "a@b.c" "12-" true "t" =
      (CreateResult.invalidTermExpr, []) :=
  (c6_create_alert_validation [] "My rule" "0.07" "a@b.c" "12-" true "t").2.1
    (by decide) (by decide) (by decide) (by decide) (by decide) (by decide)
